import Mathlib

/-!
Verification development for the reach-ui widget declarations
(tooltip, menu-button, combobox).

The repository ships type declarations only; the interaction logic the
spec describes (keyboard navigation, open/close transitions, autocomplete
highlighting, tooltip timing) is therefore modelled from the spec's own
words, as shallow functional embeddings over explicit state types.
Strings are embedded as `List Char`; indices from TypeScript `number`
fields are embedded as `Int` with the −1 sentinel kept explicit.
-/

namespace ReachUI

/-- Case-sensitive "starts with" on character lists. -/
def startsL : List Char → List Char → Bool
  | [], _ => true
  | _ :: _, [] => false
  | a :: as, b :: bs => decide (a = b) && startsL as bs

/-- Modelled from the spec: case-insensitive prefix match — "option value
starts with input text", compared after lowercasing both sides. -/
def ciStarts (pat v : List Char) : Bool :=
  startsL (pat.map Char.toLower) (v.map Char.toLower)

theorem startsL_self (l : List Char) : startsL l l = true := by
  induction l with
  | nil => rfl
  | cons a as ih => simp [startsL, ih]

theorem ciStarts_self (v : List Char) : ciStarts v v = true := by
  simp [ciStarts, startsL_self]

/-- Modelled from the spec: `ComboboxOptionText` text segmentation — given
the current input text and an option's value, produce the ordered
(substring, isMatch) segments splitting the value at the matched region;
matching is case-insensitive but the segments keep the value's casing. -/
def segs (input value : List Char) : List (List Char × Bool) :=
  if !input.isEmpty && ciStarts input value then
    [(value.take input.length, true), (value.drop input.length, false)]
  else
    [(value, false)]

/-- Concatenation of the substrings of a segment list. -/
def segsText (l : List (List Char × Bool)) : List Char :=
  l.foldr (fun s acc => s.1 ++ acc) []

/-- Claim C3: for every (input text, option value) pair, concatenating the
substrings of the ordered segment sequence yields the original option
value exactly. -/
theorem segs_roundtrip (input value : List Char) :
    segsText (segs input value) = value := by
  unfold segs segsText
  split
  · simp [List.take_append_drop]
  · simp

/-- Geometry of a DOM bounding rectangle (the `DOMRect` referenced by
`MenuItemState.buttonRect` and `TooltipParams.triggerRect`). -/
structure DOMRect where
  x : Int
  y : Int
  width : Int
  height : Int
  deriving DecidableEq

/-- A rendered menu entry: its label (for typeahead) and whether it is
disabled. Modelled from the spec's menu-item description. -/
structure MenuItem where
  label : List Char
  disabled : Bool
  deriving DecidableEq

/-- MenuItemState from `src/unnamed/part_000` lines 86–92: buttonId,
optional buttonRect (present only while open), closingWithClick, isOpen,
and selectionIndex with −1 as the "none" sentinel. -/
structure MenuItemState where
  buttonId : String
  buttonRect : Option DOMRect
  closingWithClick : Bool
  isOpen : Bool
  selectionIndex : Int
  deriving DecidableEq

def menuInit : MenuItemState :=
  { buttonId := "menu-button", buttonRect := none, closingWithClick := false,
    isOpen := false, selectionIndex := -1 }

/-- Whether index `j` names an enabled rendered item. -/
def enabledAt (items : List MenuItem) (j : Nat) : Bool :=
  match items.get? j with
  | some it => !it.disabled
  | none => false

/-- Whether item `j`'s label starts with character `c`, case-insensitively. -/
def labelHeadIs (items : List MenuItem) (c : Char) (j : Nat) : Bool :=
  match items.get? j with
  | some it =>
    match it.label with
    | [] => false
    | a :: _ => decide (a.toLower = c.toLower)
  | none => false

/-- First index satisfying `p`, scanning `items.length` positions cyclically
from `start` (wrapping modulo the item count). -/
def findCyclic (n start : Nat) (p : Nat → Bool) : Option Nat :=
  ((List.range n).map (fun o => (start + o) % n)).find? p

/-- Modelled from the spec: ArrowDown moves selectionIndex circularly
through enabled items, skipping disabled ones; from the −1 sentinel the
scan starts at the first item. If no enabled item exists the index is
left unchanged. -/
def arrowDownIdx (items : List MenuItem) (cur : Int) : Int :=
  let start := if cur < 0 then 0 else (cur.toNat + 1) % items.length
  match findCyclic items.length start (enabledAt items) with
  | some j => (j : Int)
  | none => cur

/-- First index satisfying `p`, scanning `n` positions cyclically backwards
from `start`. -/
def findCyclicBack (n start : Nat) (p : Nat → Bool) : Option Nat :=
  ((List.range n).map (fun o => (start + n - o) % n)).find? p

/-- Modelled from the spec: ArrowUp counterpart of `arrowDownIdx`, scanning
backwards cyclically through enabled items. -/
def arrowUpIdx (items : List MenuItem) (cur : Int) : Int :=
  let start :=
    if cur < 0 then items.length - 1
    else (cur.toNat + items.length - 1) % items.length
  match findCyclicBack items.length start (enabledAt items) with
  | some j => (j : Int)
  | none => cur

/-- Modelled from the spec: typing a character jumps to the next item
(cyclically) whose label starts with that character, case-insensitively;
unchanged when no label matches. -/
def typeAheadIdx (items : List MenuItem) (c : Char) (cur : Int) : Int :=
  let start := if cur < 0 then 0 else (cur.toNat + 1) % items.length
  match findCyclic items.length start (labelHeadIs items c) with
  | some j => (j : Int)
  | none => cur

/-- Events driving the menu-button state machine, from the spec's
transition list. Open events carry the measured button rectangle. -/
inductive MenuEvent where
  | openClick (r : DOMRect)
  | openEnter (r : DOMRect)
  | openArrowDown (r : DOMRect)
  | openArrowUp (r : DOMRect)
  | arrowDown
  | arrowUp
  | keyHome
  | keyEnd
  | typeChar (c : Char)
  | escape
  | outsideClick
  | selectItem
  deriving DecidableEq

/-- Close the menu, recording whether the close was pointer-driven. -/
def closeMenu (s : MenuItemState) (withClick : Bool) : MenuItemState :=
  { s with isOpen := false, buttonRect := none, selectionIndex := -1,
           closingWithClick := withClick }

/-- Modelled from the spec: one step of the menu-button state machine
(CLOSED → OPEN on button activation with arrow keys seeding first/last,
OPEN → CLOSED on Escape/outside click/selection/toggle, and in-OPEN
navigation). -/
def menuStep (items : List MenuItem) (s : MenuItemState) : MenuEvent → MenuItemState
  | .openClick r =>
    if s.isOpen then closeMenu s true
    else { s with isOpen := true, buttonRect := some r, selectionIndex := -1,
                  closingWithClick := false }
  | .openEnter r =>
    if s.isOpen then closeMenu s false
    else { s with isOpen := true, buttonRect := some r, selectionIndex := -1,
                  closingWithClick := false }
  | .openArrowDown r =>
    if s.isOpen then closeMenu s false
    else { s with isOpen := true, buttonRect := some r, closingWithClick := false,
                  selectionIndex := if items.isEmpty then -1 else 0 }
  | .openArrowUp r =>
    if s.isOpen then closeMenu s false
    else { s with isOpen := true, buttonRect := some r, closingWithClick := false,
                  selectionIndex :=
                    if items.isEmpty then -1 else ((items.length - 1 : Nat) : Int) }
  | .arrowDown =>
    if s.isOpen then { s with selectionIndex := arrowDownIdx items s.selectionIndex }
    else s
  | .arrowUp =>
    if s.isOpen then { s with selectionIndex := arrowUpIdx items s.selectionIndex }
    else s
  | .keyHome =>
    if s.isOpen then
      { s with selectionIndex := if items.isEmpty then -1 else 0 }
    else s
  | .keyEnd =>
    if s.isOpen then
      { s with selectionIndex :=
          if items.isEmpty then -1 else ((items.length - 1 : Nat) : Int) }
    else s
  | .typeChar c =>
    if s.isOpen then { s with selectionIndex := typeAheadIdx items c s.selectionIndex }
    else s
  | .escape => closeMenu s false
  | .outsideClick => closeMenu s true
  | .selectItem => if s.isOpen then closeMenu s false else s

def runMenu (items : List MenuItem) (es : List MenuEvent) : MenuItemState :=
  es.foldl (menuStep items) menuInit

theorem enabledAt_lt {items : List MenuItem} {j : Nat}
    (h : enabledAt items j = true) : j < items.length := by
  by_contra hj
  push_neg at hj
  have hn : items[j]? = none := List.getElem?_eq_none hj
  simp [enabledAt, hn] at h

theorem labelHeadIs_lt {items : List MenuItem} {c : Char} {j : Nat}
    (h : labelHeadIs items c j = true) : j < items.length := by
  by_contra hj
  push_neg at hj
  have hn : items[j]? = none := List.getElem?_eq_none hj
  simp [labelHeadIs, hn] at h

/-- A selection index is either the −1 sentinel or names an enabled
rendered item. -/
def SelEnabled (items : List MenuItem) (i : Int) : Prop :=
  i = -1 ∨ (0 ≤ i ∧ i.toNat < items.length ∧ enabledAt items i.toNat = true)

/-- A selection index is either the −1 sentinel or in the rendered range. -/
def SelInRange (items : List MenuItem) (i : Int) : Prop :=
  i = -1 ∨ (0 ≤ i ∧ i < (items.length : Int))

theorem selEnabled_arrowDownIdx {items : List MenuItem} {cur : Int}
    (h : SelEnabled items cur) : SelEnabled items (arrowDownIdx items cur) := by
  unfold arrowDownIdx
  cases hf : findCyclic items.length
      (if cur < 0 then 0 else (cur.toNat + 1) % items.length) (enabledAt items) with
  | none => simpa [hf] using h
  | some j =>
    have hj : enabledAt items j = true := List.find?_some hf
    have hlt : j < items.length := enabledAt_lt hj
    refine Or.inr ?_
    simp only [hf]
    refine ⟨Int.ofNat_nonneg j, ?_, ?_⟩ <;> simpa [Int.toNat_ofNat] using (by assumption)

theorem selInRange_of_selEnabled {items : List MenuItem} {i : Int}
    (h : SelEnabled items i) : SelInRange items i := by
  rcases h with h | ⟨h0, hlt, _⟩
  · exact Or.inl h
  · refine Or.inr ⟨h0, ?_⟩
    omega

theorem selInRange_neg (items : List MenuItem) : SelInRange items (-1) :=
  Or.inl rfl

theorem selInRange_zero {items : List MenuItem} (h : items.isEmpty = false) :
    SelInRange items 0 := by
  refine Or.inr ⟨le_refl 0, ?_⟩
  have : items.length ≠ 0 := by
    simpa [List.isEmpty_iff, ← List.length_eq_zero] using h
  omega

theorem selInRange_last {items : List MenuItem} (h : items.isEmpty = false) :
    SelInRange items ((items.length - 1 : Nat) : Int) := by
  refine Or.inr ⟨Int.ofNat_nonneg _, ?_⟩
  have : items.length ≠ 0 := by
    simpa [List.isEmpty_iff, ← List.length_eq_zero] using h
  omega

theorem selInRange_arrowDownIdx {items : List MenuItem} {cur : Int}
    (h : SelInRange items cur) : SelInRange items (arrowDownIdx items cur) := by
  unfold arrowDownIdx
  cases hf : findCyclic items.length
      (if cur < 0 then 0 else (cur.toNat + 1) % items.length) (enabledAt items) with
  | none => simpa [hf] using h
  | some j =>
    have hlt : j < items.length := enabledAt_lt (List.find?_some hf)
    simp only [hf]
    exact Or.inr ⟨Int.ofNat_nonneg j, by exact_mod_cast hlt⟩

theorem selInRange_arrowUpIdx {items : List MenuItem} {cur : Int}
    (h : SelInRange items cur) : SelInRange items (arrowUpIdx items cur) := by
  unfold arrowUpIdx
  cases hf : findCyclicBack items.length
      (if cur < 0 then items.length - 1
       else (cur.toNat + items.length - 1) % items.length) (enabledAt items) with
  | none => simpa [hf] using h
  | some j =>
    have hlt : j < items.length := enabledAt_lt (List.find?_some hf)
    simp only [hf]
    exact Or.inr ⟨Int.ofNat_nonneg j, by exact_mod_cast hlt⟩

theorem selInRange_typeAheadIdx {items : List MenuItem} {c : Char} {cur : Int}
    (h : SelInRange items cur) : SelInRange items (typeAheadIdx items c cur) := by
  unfold typeAheadIdx
  cases hf : findCyclic items.length
      (if cur < 0 then 0 else (cur.toNat + 1) % items.length) (labelHeadIs items c) with
  | none => simpa [hf] using h
  | some j =>
    have hlt : j < items.length := labelHeadIs_lt (List.find?_some hf)
    simp only [hf]
    exact Or.inr ⟨Int.ofNat_nonneg j, by exact_mod_cast hlt⟩

theorem selInRange_menuStep (items : List MenuItem) (s : MenuItemState)
    (e : MenuEvent) (h : SelInRange items s.selectionIndex) :
    SelInRange items (menuStep items s e).selectionIndex := by
  cases e with
  | openClick r =>
    by_cases ho : s.isOpen <;> simp [menuStep, closeMenu, ho, selInRange_neg]
  | openEnter r =>
    by_cases ho : s.isOpen <;> simp [menuStep, closeMenu, ho, selInRange_neg]
  | openArrowDown r =>
    by_cases ho : s.isOpen <;> simp only [menuStep, closeMenu, ho, if_true, if_false]
    · exact selInRange_neg items
    · cases he : items.isEmpty <;> simp [he]
      · exact selInRange_zero he
      · exact selInRange_neg items
  | openArrowUp r =>
    by_cases ho : s.isOpen <;> simp only [menuStep, closeMenu, ho, if_true, if_false]
    · exact selInRange_neg items
    · cases he : items.isEmpty <;> simp [he]
      · exact selInRange_last he
      · exact selInRange_neg items
  | arrowDown =>
    by_cases ho : s.isOpen <;> simp only [menuStep, ho, if_true, if_false]
    · exact selInRange_arrowDownIdx h
    · exact h
  | arrowUp =>
    by_cases ho : s.isOpen <;> simp only [menuStep, ho, if_true, if_false]
    · exact selInRange_arrowUpIdx h
    · exact h
  | keyHome =>
    by_cases ho : s.isOpen <;> simp only [menuStep, ho, if_true, if_false]
    · cases he : items.isEmpty <;> simp [he]
      · exact selInRange_zero he
      · exact selInRange_neg items
    · exact h
  | keyEnd =>
    by_cases ho : s.isOpen <;> simp only [menuStep, ho, if_true, if_false]
    · cases he : items.isEmpty <;> simp [he]
      · exact selInRange_last he
      · exact selInRange_neg items
    · exact h
  | typeChar c =>
    by_cases ho : s.isOpen <;> simp only [menuStep, ho, if_true, if_false]
    · exact selInRange_typeAheadIdx h
    · exact h
  | escape => simp [menuStep, closeMenu, selInRange_neg]
  | outsideClick => simp [menuStep, closeMenu, selInRange_neg]
  | selectItem =>
    by_cases ho : s.isOpen <;> simp only [menuStep, ho, if_true, if_false]
    · simp [closeMenu, selInRange_neg]
    · exact h

theorem selInRange_runMenu (items : List MenuItem) (es : List MenuEvent) :
    SelInRange items (runMenu items es).selectionIndex := by
  suffices hgen : ∀ s : MenuItemState, SelInRange items s.selectionIndex →
      SelInRange items (es.foldl (menuStep items) s).selectionIndex by
    exact hgen menuInit (selInRange_neg items)
  induction es with
  | nil => intro s hs; exact hs
  | cons e es ih =>
    intro s hs
    exact ih (menuStep items s e) (selInRange_menuStep items s e hs)

theorem selEnabled_arrowDown_step (items : List MenuItem) (s : MenuItemState)
    (h : SelEnabled items s.selectionIndex) :
    SelEnabled items (menuStep items s .arrowDown).selectionIndex := by
  by_cases ho : s.isOpen <;> simp only [menuStep, ho, if_true, if_false]
  · exact selEnabled_arrowDownIdx h
  · exact h

/-- One ArrowDown key press applied to the menu state. -/
def arrowDownStep (items : List MenuItem) (s : MenuItemState) : MenuItemState :=
  menuStep items s .arrowDown

/-- Claim C1: for every open menu and every sequence of ArrowDown presses,
selectionIndex stays in range modulo the item count, lands only on enabled
items (or the −1 sentinel), and never equals the index of a disabled item. -/
theorem arrowDown_cycles_enabled (items : List MenuItem) (s : MenuItemState)
    (k : Nat) (hs : SelEnabled items s.selectionIndex) :
    SelEnabled items (((arrowDownStep items)^[k]) s).selectionIndex ∧
    (∀ (j : Nat) (it : MenuItem), items.get? j = some it → it.disabled = true →
      (((arrowDownStep items)^[k]) s).selectionIndex ≠ (j : Int)) := by
  have hmain : SelEnabled items (((arrowDownStep items)^[k]) s).selectionIndex := by
    induction k with
    | zero => simpa using hs
    | succ n ih =>
      rw [Function.iterate_succ_apply']
      exact selEnabled_arrowDown_step items _ ih
  refine ⟨hmain, ?_⟩
  intro j it hget hdis heq
  rcases hmain with hneg | ⟨h0, hlt, hen⟩
  · rw [heq] at hneg
    omega
  · rw [heq] at hen
    simp only [Int.toNat_ofNat] at hen
    rw [enabledAt, hget] at hen
    simp [hdis] at hen

/-- Concrete menu used in witnesses: enabled "a", disabled "b", enabled "c". -/
def itemsW : List MenuItem :=
  [⟨"a".toList, false⟩, ⟨"b".toList, true⟩, ⟨"c".toList, false⟩]

/-- An open menu state with no selection yet. -/
def menuOpenW : MenuItemState :=
  { buttonId := "menu-button", buttonRect := some ⟨0, 0, 10, 10⟩,
    closingWithClick := false, isOpen := true, selectionIndex := -1 }

theorem arrowDown_cycles_enabled_witness :
    SelEnabled itemsW menuOpenW.selectionIndex ∧
    (SelEnabled itemsW (((arrowDownStep itemsW)^[4]) menuOpenW).selectionIndex ∧
     (∀ (j : Nat) (it : MenuItem), itemsW.get? j = some it → it.disabled = true →
       (((arrowDownStep itemsW)^[4]) menuOpenW).selectionIndex ≠ (j : Int))) :=
  ⟨Or.inl rfl, arrowDown_cycles_enabled itemsW menuOpenW 4 (Or.inl rfl)⟩

/-- Concrete menu [A, B, C] from the C8 scenario. -/
def itemsABC : List MenuItem :=
  [⟨"A".toList, false⟩, ⟨"B".toList, false⟩, ⟨"C".toList, false⟩]

/-- Claim C8: activating the button of a closed nonempty menu with
ArrowDown opens it seeded at the first item, with ArrowUp opens it seeded
at the last item; for items [A,B,C] opening via ArrowUp yields
selectionIndex = 2. -/
theorem open_arrow_seeds_selection (items : List MenuItem) (s : MenuItemState)
    (r : DOMRect) (h1 : s.isOpen = false) (h2 : items ≠ []) :
    (menuStep items s (.openArrowDown r)).isOpen = true ∧
    (menuStep items s (.openArrowDown r)).selectionIndex = 0 ∧
    (menuStep items s (.openArrowUp r)).isOpen = true ∧
    (menuStep items s (.openArrowUp r)).selectionIndex =
      ((items.length - 1 : Nat) : Int) ∧
    (menuStep itemsABC menuInit (.openArrowUp ⟨0, 0, 10, 10⟩)).selectionIndex = 2 := by
  have he : items.isEmpty = false := by
    simpa [List.isEmpty_iff] using h2
  refine ⟨?_, ?_, ?_, ?_, by decide⟩ <;> simp [menuStep, h1, he]

theorem open_arrow_seeds_selection_witness :
    menuInit.isOpen = false ∧ itemsABC ≠ [] ∧
    ((menuStep itemsABC menuInit (.openArrowDown ⟨0, 0, 10, 10⟩)).isOpen = true ∧
     (menuStep itemsABC menuInit (.openArrowDown ⟨0, 0, 10, 10⟩)).selectionIndex = 0 ∧
     (menuStep itemsABC menuInit (.openArrowUp ⟨0, 0, 10, 10⟩)).isOpen = true ∧
     (menuStep itemsABC menuInit (.openArrowUp ⟨0, 0, 10, 10⟩)).selectionIndex =
       ((itemsABC.length - 1 : Nat) : Int) ∧
     (menuStep itemsABC menuInit (.openArrowUp ⟨0, 0, 10, 10⟩)).selectionIndex = 2) :=
  ⟨rfl, by decide,
    open_arrow_seeds_selection itemsABC menuInit ⟨0, 0, 10, 10⟩ rfl (by decide)⟩

/-- Combobox configuration from the declarations: `autocomplete`
(ComboboxInputProps), `openOnFocus` (ComboboxProps), `persistSelection`
(ComboboxListProps). -/
structure ComboConfig where
  autocomplete : Bool
  openOnFocus : Bool
  persistSelection : Bool
  deriving DecidableEq

/-- ComboboxState from the spec's data model: inputValue, isListOpen,
highlightedOptionValue (with none as the sentinel), plus the last
committed/typed value that Escape restores and matching filters on. -/
structure ComboboxState where
  inputValue : List Char
  typedValue : List Char
  isListOpen : Bool
  highlighted : Option (List Char)
  deriving DecidableEq

def comboInit : ComboboxState := ⟨[], [], false, none⟩

/-- Events driving the combobox controller, from the spec's contract. -/
inductive ComboEvent where
  | inputChange (t : List Char)
  | focus
  | arrowDown
  | arrowUp
  | enter
  | escape
  deriving DecidableEq

/-- Cyclic successor of the current highlight inside a list of option
values; from no highlight, the first entry. -/
def nextCyclic (l : List (List Char)) (cur : Option (List Char)) :
    Option (List Char) :=
  match cur with
  | none => l.head?
  | some v =>
    match l.findIdx? (fun x => decide (x = v)) with
    | some i => l.get? ((i + 1) % l.length)
    | none => l.head?

/-- Cyclic predecessor of the current highlight inside a list of option
values; from no highlight, the last entry. -/
def prevCyclic (l : List (List Char)) (cur : Option (List Char)) :
    Option (List Char) :=
  match cur with
  | none => l.get? (l.length - 1)
  | some v =>
    match l.findIdx? (fun x => decide (x = v)) with
    | some i => l.get? ((i + l.length - 1) % l.length)
    | none => l.get? (l.length - 1)

/-- Modelled from the spec: one step of the combobox controller. Input
change updates both values, opens the list on non-empty input (never for
an empty option list) and recomputes the highlight as the first
case-insensitive prefix match when autocomplete is on; focus opens via
`openOnFocus`, seeding an exact-match highlight under `persistSelection`;
ArrowDown/ArrowUp move the highlight circularly through the options
matching the typed text, mirroring it into the input when autocomplete is
on; Enter commits; Escape closes and restores the typed value. -/
def comboStep (cfg : ComboConfig) (opts : List (List Char)) (s : ComboboxState) :
    ComboEvent → ComboboxState
  | .inputChange t =>
    { inputValue := t
      typedValue := t
      isListOpen := !t.isEmpty && !opts.isEmpty
      highlighted :=
        if cfg.autocomplete then opts.find? (fun v => ciStarts t v) else none }
  | .focus =>
    if s.isListOpen then s
    else if cfg.openOnFocus && !opts.isEmpty then
      { s with isListOpen := true
               highlighted :=
                 if cfg.persistSelection then
                   opts.find? (fun v => decide (v = s.inputValue))
                 else none }
    else s
  | .arrowDown =>
    if s.isListOpen then
      let matching := opts.filter (fun v => ciStarts s.typedValue v)
      let h := nextCyclic matching s.highlighted
      { s with highlighted := h
               inputValue := if cfg.autocomplete then h.getD s.inputValue
                             else s.inputValue }
    else s
  | .arrowUp =>
    if s.isListOpen then
      let matching := opts.filter (fun v => ciStarts s.typedValue v)
      let h := prevCyclic matching s.highlighted
      { s with highlighted := h
               inputValue := if cfg.autocomplete then h.getD s.inputValue
                             else s.inputValue }
    else s
  | .enter =>
    match s.highlighted with
    | some v => { inputValue := v, typedValue := v, isListOpen := false,
                  highlighted := none }
    | none => { s with isListOpen := false }
  | .escape =>
    { s with isListOpen := false, inputValue := s.typedValue, highlighted := none }

def runCombo (cfg : ComboConfig) (opts : List (List Char))
    (es : List ComboEvent) : ComboboxState :=
  es.foldl (fun s e => comboStep cfg opts s e) comboInit

theorem head?_mem {α : Type} {l : List α} {a : α} (h : l.head? = some a) :
    a ∈ l := by
  cases l with
  | nil => simp at h
  | cons b bs =>
    simp only [List.head?] at h
    injection h with h
    subst h
    exact List.mem_cons_self _ _

theorem nextCyclic_mem {l : List (List Char)} {cur : Option (List Char)}
    {w : List Char} (h : nextCyclic l cur = some w) : w ∈ l := by
  cases cur with
  | none =>
    simp only [nextCyclic] at h
    exact head?_mem h
  | some v =>
    simp only [nextCyclic] at h
    cases hfi : l.findIdx? (fun x => decide (x = v)) with
    | some i => rw [hfi] at h; exact List.get?_mem h
    | none => rw [hfi] at h; exact head?_mem h

theorem prevCyclic_mem {l : List (List Char)} {cur : Option (List Char)}
    {w : List Char} (h : prevCyclic l cur = some w) : w ∈ l := by
  cases cur with
  | none =>
    simp only [prevCyclic] at h
    exact List.get?_mem h
  | some v =>
    simp only [prevCyclic] at h
    cases hfi : l.findIdx? (fun x => decide (x = v)) with
    | some i => rw [hfi] at h; exact List.get?_mem h
    | none => rw [hfi] at h; exact List.get?_mem h

theorem nextCyclic_eq_none {l : List (List Char)} {cur : Option (List Char)}
    (h : nextCyclic l cur = none) : l = [] := by
  cases cur with
  | none => simpa [nextCyclic] using h
  | some v =>
    simp only [nextCyclic] at h
    cases hfi : l.findIdx? (fun x => decide (x = v)) with
    | some i =>
      rw [hfi] at h
      have hle := List.get?_eq_none.mp h
      by_contra hne
      have hpos : 0 < l.length := List.length_pos.mpr hne
      have := Nat.mod_lt (i + 1) hpos
      omega
    | none => rw [hfi] at h; simpa using h

theorem prevCyclic_eq_none {l : List (List Char)} {cur : Option (List Char)}
    (h : prevCyclic l cur = none) : l = [] := by
  by_contra hne
  have hpos : 0 < l.length := List.length_pos.mpr hne
  cases cur with
  | none =>
    simp only [prevCyclic] at h
    have hle := List.get?_eq_none.mp h
    omega
  | some v =>
    simp only [prevCyclic] at h
    cases hfi : l.findIdx? (fun x => decide (x = v)) with
    | some i =>
      rw [hfi] at h
      have hle := List.get?_eq_none.mp h
      have := Nat.mod_lt (i + l.length - 1) hpos
      omega
    | none =>
      rw [hfi] at h
      have hle := List.get?_eq_none.mp h
      omega

/-- Reachable-state invariant of the combobox controller: the highlight is
the none sentinel or an option matching the typed text; a closed list
means the input equals the typed value; and the input either equals the
typed value or (autocomplete mirroring) equals the highlighted option. -/
def ComboInv (cfg : ComboConfig) (opts : List (List Char))
    (s : ComboboxState) : Prop :=
  (s.highlighted = none ∨
    ∃ v, s.highlighted = some v ∧ v ∈ opts ∧ ciStarts s.typedValue v = true) ∧
  (s.isListOpen = false → s.inputValue = s.typedValue) ∧
  (s.inputValue = s.typedValue ∨
    (cfg.autocomplete = true ∧ ∃ w, s.highlighted = some w ∧ s.inputValue = w))

theorem comboInv_init (cfg : ComboConfig) (opts : List (List Char)) :
    ComboInv cfg opts comboInit :=
  ⟨Or.inl rfl, fun _ => rfl, Or.inl rfl⟩

theorem comboInv_step (cfg : ComboConfig) (opts : List (List Char))
    (s : ComboboxState) (e : ComboEvent) (h : ComboInv cfg opts s) :
    ComboInv cfg opts (comboStep cfg opts s e) := by
  obtain ⟨hA, hB, hC⟩ := h
  cases e with
  | inputChange t =>
    refine ⟨?_, fun _ => rfl, Or.inl rfl⟩
    simp only [comboStep]
    cases hauto : cfg.autocomplete with
    | false => simp
    | true =>
      simp only [if_true]
      cases hf : opts.find? (fun v => ciStarts t v) with
      | none => exact Or.inl rfl
      | some v =>
        exact Or.inr ⟨v, rfl, List.mem_of_find?_eq_some hf, List.find?_some hf⟩
  | focus =>
    by_cases ho : s.isListOpen
    · simpa [comboStep, ho] using ⟨hA, hB, hC⟩
    · have hin : s.inputValue = s.typedValue := hB (by simpa using ho)
      by_cases hg : (cfg.openOnFocus && !opts.isEmpty) = true
      · simp only [comboStep, ho, if_false, hg, if_true]
        refine ⟨?_, by simp, Or.inl hin⟩
        cases hp : cfg.persistSelection with
        | false => simp
        | true =>
          simp only [if_true]
          cases hf : opts.find? (fun v => decide (v = s.inputValue)) with
          | none => exact Or.inl rfl
          | some v =>
            have hv : v = s.inputValue := by
              have := List.find?_some hf
              simpa using this
            refine Or.inr ⟨v, rfl, List.mem_of_find?_eq_some hf, ?_⟩
            rw [hv, hin]
            exact ciStarts_self _
      · simpa [comboStep, ho, hg] using ⟨hA, hB, hC⟩
  | arrowDown =>
    by_cases ho : s.isListOpen
    · simp only [comboStep, ho, if_true]
      refine ⟨?_, by simp [ho], ?_⟩
      · cases hn : nextCyclic (opts.filter (fun v => ciStarts s.typedValue v))
            s.highlighted with
        | none => simp [hn]
        | some w =>
          have hw := List.mem_filter.mp (nextCyclic_mem hn)
          exact Or.inr ⟨w, by simp [hn], hw.1, hw.2⟩
      · cases hn : nextCyclic (opts.filter (fun v => ciStarts s.typedValue v))
            s.highlighted with
        | none =>
          have hmty := nextCyclic_eq_none hn
          have hhl : s.highlighted = none := by
            rcases hA with hA | ⟨v, hv, hvo, hvm⟩
            · exact hA
            · exfalso
              have : v ∈ opts.filter (fun u => ciStarts s.typedValue u) :=
                List.mem_filter.mpr ⟨hvo, hvm⟩
              rw [hmty] at this
              simp at this
          have hin : s.inputValue = s.typedValue := by
            rcases hC with hC | ⟨_, w, hw, _⟩
            · exact hC
            · rw [hhl] at hw; simp at hw
          refine Or.inl ?_
          simp [hn, hin]
        | some w =>
          cases hauto : cfg.autocomplete with
          | false =>
            rcases hC with hC | ⟨hac, _⟩
            · exact Or.inl (by simp [hauto, hC])
            · rw [hauto] at hac; simp at hac
          | true =>
            exact Or.inr ⟨rfl, w, by simp [hn], by simp [hn, hauto]⟩
    · simpa [comboStep, ho] using ⟨hA, hB, hC⟩
  | arrowUp =>
    by_cases ho : s.isListOpen
    · simp only [comboStep, ho, if_true]
      refine ⟨?_, by simp [ho], ?_⟩
      · cases hn : prevCyclic (opts.filter (fun v => ciStarts s.typedValue v))
            s.highlighted with
        | none => simp [hn]
        | some w =>
          have hw := List.mem_filter.mp (prevCyclic_mem hn)
          exact Or.inr ⟨w, by simp [hn], hw.1, hw.2⟩
      · cases hn : prevCyclic (opts.filter (fun v => ciStarts s.typedValue v))
            s.highlighted with
        | none =>
          have hmty := prevCyclic_eq_none hn
          have hhl : s.highlighted = none := by
            rcases hA with hA | ⟨v, hv, hvo, hvm⟩
            · exact hA
            · exfalso
              have : v ∈ opts.filter (fun u => ciStarts s.typedValue u) :=
                List.mem_filter.mpr ⟨hvo, hvm⟩
              rw [hmty] at this
              simp at this
          have hin : s.inputValue = s.typedValue := by
            rcases hC with hC | ⟨_, w, hw, _⟩
            · exact hC
            · rw [hhl] at hw; simp at hw
          refine Or.inl ?_
          simp [hn, hin]
        | some w =>
          cases hauto : cfg.autocomplete with
          | false =>
            rcases hC with hC | ⟨hac, _⟩
            · exact Or.inl (by simp [hauto, hC])
            · rw [hauto] at hac; simp at hac
          | true =>
            exact Or.inr ⟨rfl, w, by simp [hn], by simp [hn, hauto]⟩
    · simpa [comboStep, ho] using ⟨hA, hB, hC⟩
  | enter =>
    cases hh : s.highlighted with
    | some v =>
      simp only [comboStep, hh]
      exact ⟨Or.inl rfl, fun _ => rfl, Or.inl rfl⟩
    | none =>
      have hin : s.inputValue = s.typedValue := by
        rcases hC with hC | ⟨_, w, hw, _⟩
        · exact hC
        · rw [hh] at hw; simp at hw
      simp only [comboStep, hh]
      exact ⟨by simp [hh], fun _ => hin, Or.inl hin⟩
  | escape =>
    exact ⟨Or.inl rfl, fun _ => rfl, Or.inl rfl⟩

theorem comboInv_run (cfg : ComboConfig) (opts : List (List Char))
    (es : List ComboEvent) : ComboInv cfg opts (runCombo cfg opts es) := by
  suffices hgen : ∀ s : ComboboxState, ComboInv cfg opts s →
      ComboInv cfg opts (es.foldl (fun st e => comboStep cfg opts st e) s) by
    exact hgen comboInit (comboInv_init cfg opts)
  induction es with
  | nil => intro s hs; exact hs
  | cons e es ih =>
    intro s hs
    exact ih (comboStep cfg opts s e) (comboInv_step cfg opts s e hs)

/-- Claim C2: Escape closes the menu (CLOSED, selection cleared) from any
prior state, and closes the combobox list while restoring inputValue to
the last committed/typed value and discarding the in-progress highlight. -/
theorem escape_closes_and_restores (items : List MenuItem) (s : MenuItemState)
    (cfg : ComboConfig) (opts : List (List Char)) (cs : ComboboxState) :
    (menuStep items s .escape).isOpen = false ∧
    (menuStep items s .escape).selectionIndex = -1 ∧
    (comboStep cfg opts cs .escape).isListOpen = false ∧
    (comboStep cfg opts cs .escape).inputValue = cs.typedValue ∧
    (comboStep cfg opts cs .escape).highlighted = none := by
  refine ⟨?_, ?_, ?_, ?_, ?_⟩ <;> simp [menuStep, closeMenu, comboStep]

theorem find?_first {α : Type} (p : α → Bool) (l : List α) (v : α)
    (h : l.find? p = some v) :
    p v = true ∧ ∃ l₁ l₂, l = l₁ ++ v :: l₂ ∧ ∀ u ∈ l₁, p u = false := by
  induction l with
  | nil => simp at h
  | cons a as ih =>
    cases hpa : p a with
    | true =>
      rw [List.find?_cons_of_pos _ hpa] at h
      injection h with h
      subst h
      exact ⟨hpa, [], as, rfl, by simp⟩
    | false =>
      rw [List.find?_cons_of_neg _ (by simp [hpa])] at h
      obtain ⟨h1, l₁, l₂, hsplit, h2⟩ := ih h
      refine ⟨h1, a :: l₁, l₂, by rw [hsplit]; rfl, ?_⟩
      intro u hu
      rcases List.mem_cons.mp hu with rfl | hu
      · exact hpa
      · exact h2 u hu

/-- Concrete option list from the C4 scenario. -/
def optsApple : List (List Char) :=
  ["Apple".toList, "Apricot".toList, "Banana".toList]

/-- Claim C4: after an input change with autocomplete enabled, the
highlighted option is the first option whose value the new text
case-insensitively prefixes (none when no option matches); with options
[Apple, Apricot, Banana] and input "Ap", the highlight is "Apple". -/
theorem inputChange_highlights_first_match (cfg : ComboConfig)
    (opts : List (List Char)) (s : ComboboxState) (t : List Char)
    (hauto : cfg.autocomplete = true) :
    ((comboStep cfg opts s (.inputChange t)).highlighted = none →
      ∀ v ∈ opts, ciStarts t v = false) ∧
    (∀ v, (comboStep cfg opts s (.inputChange t)).highlighted = some v →
      ciStarts t v = true ∧
      ∃ l₁ l₂, opts = l₁ ++ v :: l₂ ∧ ∀ u ∈ l₁, ciStarts t u = false) ∧
    (comboStep cfg optsApple comboInit (.inputChange "Ap".toList)).highlighted =
      some "Apple".toList := by
  refine ⟨?_, ?_, ?_⟩
  · intro hnone v hv
    simp only [comboStep, hauto, if_true] at hnone
    have := List.find?_eq_none.mp hnone v hv
    simpa using this
  · intro v hsome
    simp only [comboStep, hauto, if_true] at hsome
    exact find?_first _ opts v hsome
  · simp only [comboStep, hauto, if_true]
    decide

def cfgW : ComboConfig := ⟨true, true, true⟩

theorem inputChange_highlights_first_match_witness :
    cfgW.autocomplete = true ∧
    (((comboStep cfgW optsApple comboInit (.inputChange "Ap".toList)).highlighted =
        none → ∀ v ∈ optsApple, ciStarts "Ap".toList v = false) ∧
     (∀ v, (comboStep cfgW optsApple comboInit
        (.inputChange "Ap".toList)).highlighted = some v →
        ciStarts "Ap".toList v = true ∧
        ∃ l₁ l₂, optsApple = l₁ ++ v :: l₂ ∧
          ∀ u ∈ l₁, ciStarts "Ap".toList u = false) ∧
     (comboStep cfgW optsApple comboInit (.inputChange "Ap".toList)).highlighted =
        some "Apple".toList) :=
  ⟨rfl, inputChange_highlights_first_match cfgW optsApple comboInit "Ap".toList rfl⟩

theorem combo_empty_step_closed (cfg : ComboConfig) (s : ComboboxState)
    (e : ComboEvent) (h : s.isListOpen = false) :
    (comboStep cfg [] s e).isListOpen = false := by
  cases e with
  | inputChange t => simp [comboStep]
  | focus => simp [comboStep, h]
  | arrowDown => simp [comboStep, h]
  | arrowUp => simp [comboStep, h]
  | enter => cases hh : s.highlighted <;> simp [comboStep, hh]
  | escape => simp [comboStep]

theorem combo_empty_run_closed (cfg : ComboConfig) (es : List ComboEvent) :
    (runCombo cfg [] es).isListOpen = false := by
  suffices hgen : ∀ s : ComboboxState, s.isListOpen = false →
      (es.foldl (fun st e => comboStep cfg [] st e) s).isListOpen = false by
    exact hgen comboInit rfl
  induction es with
  | nil => intro s hs; exact hs
  | cons e es ih =>
    intro s hs
    exact ih (comboStep cfg [] s e) (combo_empty_step_closed cfg s e hs)

theorem arrowDown_noop (cfg : ComboConfig) (opts : List (List Char))
    (s : ComboboxState)
    (hmt : opts.filter (fun v => ciStarts s.typedValue v) = [])
    (hnone : s.highlighted = none) :
    comboStep cfg opts s .arrowDown = s := by
  obtain ⟨iv, tv, io, hl⟩ := s
  simp only at hmt hnone
  subst hnone
  cases io with
  | false => simp [comboStep]
  | true => simp [comboStep, hmt, nextCyclic]

theorem arrowUp_noop (cfg : ComboConfig) (opts : List (List Char))
    (s : ComboboxState)
    (hmt : opts.filter (fun v => ciStarts s.typedValue v) = [])
    (hnone : s.highlighted = none) :
    comboStep cfg opts s .arrowUp = s := by
  obtain ⟨iv, tv, io, hl⟩ := s
  simp only at hmt hnone
  subst hnone
  cases io with
  | false => simp [comboStep]
  | true => simp [comboStep, hmt, prevCyclic]

/-- Claim C9: in a reachable combobox state where no option matches the
current input, the highlight is the none sentinel and ArrowDown/ArrowUp
leave the state unchanged; and with an empty option list the suggestion
list never opens. -/
theorem no_match_noop_empty_never_opens (cfg : ComboConfig)
    (opts : List (List Char)) (es es₂ : List ComboEvent)
    (h : opts.filter (fun v => ciStarts (runCombo cfg opts es).inputValue v) = []) :
    (runCombo cfg opts es).highlighted = none ∧
    comboStep cfg opts (runCombo cfg opts es) .arrowDown = runCombo cfg opts es ∧
    comboStep cfg opts (runCombo cfg opts es) .arrowUp = runCombo cfg opts es ∧
    (runCombo cfg [] es₂).isListOpen = false := by
  obtain ⟨hA, hB, hC⟩ := comboInv_run cfg opts es
  set s := runCombo cfg opts es with hs
  have hin : s.inputValue = s.typedValue := by
    rcases hC with hC | ⟨_, w, hw, hiw⟩
    · exact hC
    · exfalso
      rcases hA with hA | ⟨v, hv, hvo, hvm⟩
      · rw [hA] at hw; simp at hw
      · rw [hv] at hw
        injection hw with hw
        subst hw
        have : v ∈ opts.filter (fun u => ciStarts s.inputValue u) :=
          List.mem_filter.mpr ⟨hvo, by rw [hiw]; exact ciStarts_self v⟩
        rw [h] at this
        simp at this
  have hmt : opts.filter (fun v => ciStarts s.typedValue v) = [] := by
    rw [← hin]
    exact h
  have hnone : s.highlighted = none := by
    rcases hA with hA | ⟨v, hv, hvo, hvm⟩
    · exact hA
    · exfalso
      have : v ∈ opts.filter (fun u => ciStarts s.typedValue u) :=
        List.mem_filter.mpr ⟨hvo, hvm⟩
      rw [hmt] at this
      simp at this
  exact ⟨hnone, arrowDown_noop cfg opts s hmt hnone,
    arrowUp_noop cfg opts s hmt hnone, combo_empty_run_closed cfg es₂⟩

theorem no_match_noop_empty_never_opens_witness :
    (optsApple.filter (fun v => ciStarts
      (runCombo cfgW optsApple [ComboEvent.inputChange "zz".toList]).inputValue v)
        = []) ∧
    ((runCombo cfgW optsApple [ComboEvent.inputChange "zz".toList]).highlighted
        = none ∧
     comboStep cfgW optsApple
        (runCombo cfgW optsApple [ComboEvent.inputChange "zz".toList]) .arrowDown =
        runCombo cfgW optsApple [ComboEvent.inputChange "zz".toList] ∧
     comboStep cfgW optsApple
        (runCombo cfgW optsApple [ComboEvent.inputChange "zz".toList]) .arrowUp =
        runCombo cfgW optsApple [ComboEvent.inputChange "zz".toList] ∧
     (runCombo cfgW [] [ComboEvent.focus]).isListOpen = false) :=
  ⟨by decide, no_match_noop_empty_never_opens cfgW optsApple
      [ComboEvent.inputChange "zz".toList] [ComboEvent.focus] (by decide)⟩

/-- Claim C6: in every reachable menu state the selectionIndex is the −1
sentinel or the index of a rendered item, and in every reachable combobox
state the highlighted value is the none sentinel or one of the rendered
option values — never a stale reference. -/
theorem selection_refs_rendered_or_none (items : List MenuItem)
    (es : List MenuEvent) (cfg : ComboConfig) (opts : List (List Char))
    (ces : List ComboEvent) :
    ((runMenu items es).selectionIndex = -1 ∨
      (0 ≤ (runMenu items es).selectionIndex ∧
       (runMenu items es).selectionIndex < (items.length : Int))) ∧
    ((runCombo cfg opts ces).highlighted = none ∨
      ∃ v, (runCombo cfg opts ces).highlighted = some v ∧ v ∈ opts) := by
  constructor
  · exact selInRange_runMenu items es
  · rcases (comboInv_run cfg opts ces).1 with hA | ⟨v, hv, hvo, _⟩
    · exact Or.inl hA
    · exact Or.inr ⟨v, hv, hvo⟩

/-- Events at a tooltip trigger: hover/focus-in (arming the delayed show),
a discrete timer tick, and any cancelling event (blur, mouse-leave,
mouse-down, unmount). Modelled from the spec's cancellable-timer model. -/
inductive TipEvent where
  | hover
  | tick
  | cancel
  deriving DecidableEq

/-- Tooltip visibility controller state: `TooltipParams.isVisible` plus the
remaining ticks of the pending cancellable show-timer. -/
structure TipState where
  visible : Bool
  pending : Option Nat
  deriving DecidableEq

def tipInit : TipState := ⟨false, none⟩

/-- Modelled from the spec: hover arms the show-timer with the configured
delay `d` (a no-op when already visible); a tick counts the timer down,
showing the tooltip when it expires; a cancelling event hides the tooltip
and cancels any pending show. -/
def tipStep (d : Nat) (s : TipState) : TipEvent → TipState
  | .hover => if s.visible then s else { visible := s.visible, pending := some d }
  | .tick =>
    match s.pending with
    | none => s
    | some r =>
      if r ≤ 1 then { visible := true, pending := none }
      else { visible := s.visible, pending := some (r - 1) }
  | .cancel => { visible := false, pending := none }

def runTipFrom (d : Nat) (s : TipState) (es : List TipEvent) : TipState :=
  es.foldl (tipStep d) s

def runTip (d : Nat) (es : List TipEvent) : TipState := runTipFrom d tipInit es

/-- Number of timer ticks in an event sequence. -/
def ticksIn (es : List TipEvent) : Nat :=
  (es.filter (fun e => decide (e = TipEvent.tick))).length

/-- The trace ends in a hover episode that saw no cancelling event and at
least `m` ticks after the hover. -/
def EpisodeOk (es : List TipEvent) (m : Nat) : Prop :=
  ∃ es₁ es₂, es = es₁ ++ TipEvent.hover :: es₂ ∧
    (∀ e ∈ es₂, e ≠ TipEvent.cancel) ∧ m ≤ ticksIn es₂

theorem ticksIn_append (l₁ l₂ : List TipEvent) :
    ticksIn (l₁ ++ l₂) = ticksIn l₁ + ticksIn l₂ := by
  simp [ticksIn, List.filter_append]

theorem episodeOk_snoc {es : List TipEvent} {m : Nat} (h : EpisodeOk es m)
    (e : TipEvent) (he : e ≠ TipEvent.cancel) : EpisodeOk (es ++ [e]) m := by
  obtain ⟨es₁, es₂, rfl, hnc, hm⟩ := h
  refine ⟨es₁, es₂ ++ [e], by simp, ?_, ?_⟩
  · intro x hx
    rcases List.mem_append.mp hx with hx | hx
    · exact hnc x hx
    · simp at hx
      subst hx
      exact he
  · rw [ticksIn_append]
    omega

theorem episodeOk_snoc_tick {es : List TipEvent} {m : Nat} (h : EpisodeOk es m) :
    EpisodeOk (es ++ [TipEvent.tick]) (m + 1) := by
  obtain ⟨es₁, es₂, rfl, hnc, hm⟩ := h
  refine ⟨es₁, es₂ ++ [TipEvent.tick], by simp, ?_, ?_⟩
  · intro x hx
    rcases List.mem_append.mp hx with hx | hx
    · exact hnc x hx
    · simp at hx
      subst hx
      decide
  · rw [ticksIn_append]
    have : ticksIn [TipEvent.tick] = 1 := by decide
    omega

theorem episodeOk_mono {es : List TipEvent} {m m' : Nat} (h : EpisodeOk es m)
    (hm : m' ≤ m) : EpisodeOk es m' := by
  obtain ⟨es₁, es₂, rfl, hnc, hmt⟩ := h
  exact ⟨es₁, es₂, rfl, hnc, by omega⟩

theorem tip_inv (d : Nat) (es : List TipEvent) :
    ((runTip d es).visible = true → EpisodeOk es d) ∧
    (∀ r, (runTip d es).pending = some r → EpisodeOk es (d - r)) := by
  induction es using List.reverseRecOn with
  | nil =>
    constructor
    · intro h
      simp [runTip, runTipFrom, tipInit] at h
    · intro r h
      simp [runTip, runTipFrom, tipInit] at h
  | append_singleton es e ih =>
    obtain ⟨ihv, ihp⟩ := ih
    have hrun : runTip d (es ++ [e]) = tipStep d (runTip d es) e := by
      simp [runTip, runTipFrom, List.foldl_append]
    cases e with
    | hover =>
      rw [hrun]
      by_cases hv : (runTip d es).visible = true
      · simp only [tipStep, hv, if_true]
        exact ⟨fun _ => episodeOk_snoc (ihv hv) _ (by decide),
               fun r hr => episodeOk_snoc (ihp r hr) _ (by decide)⟩
      · have hv' : (runTip d es).visible = false := by
          simpa using hv
        simp only [tipStep, hv']
        constructor
        · intro hvis
          simp at hvis
        · intro r hr
          injection hr with hr
          subst hr
          exact ⟨es, [], rfl, by simp, by simp [ticksIn]⟩
    | tick =>
      rw [hrun]
      cases hp : (runTip d es).pending with
      | none =>
        simp only [tipStep, hp]
        constructor
        · exact fun hv => episodeOk_snoc (ihv hv) _ (by decide)
        · intro r hr
          exact absurd hr (by simp)
      | some r0 =>
        by_cases hr0 : r0 ≤ 1
        · simp only [tipStep, hp, hr0, if_true]
          constructor
          · intro _
            exact episodeOk_mono (episodeOk_snoc_tick (ihp r0 hp)) (by omega)
          · intro r hr
            simp at hr
        · simp only [tipStep, hp, hr0, if_false]
          constructor
          · intro hv
            exact episodeOk_snoc (ihv hv) _ (by decide)
          · intro r hr
            injection hr with hr
            subst hr
            exact episodeOk_mono (episodeOk_snoc_tick (ihp r0 hp)) (by omega)
    | cancel =>
      rw [hrun]
      simp only [tipStep]
      constructor
      · intro hv
        simp at hv
      · intro r hr
        simp at hr

theorem runTipFrom_inert (d : Nat) (es : List TipEvent)
    (h : ∀ e ∈ es, e ≠ TipEvent.hover) :
    runTipFrom d ⟨false, none⟩ es = ⟨false, none⟩ := by
  induction es with
  | nil => rfl
  | cons e es ih =>
    have he := h e (List.mem_cons_self _ _)
    have hrest : ∀ x ∈ es, x ≠ TipEvent.hover :=
      fun x hx => h x (List.mem_cons_of_mem _ hx)
    cases e with
    | hover => exact absurd rfl he
    | tick =>
      have hstep : tipStep d ⟨false, none⟩ TipEvent.tick = ⟨false, none⟩ := rfl
      calc runTipFrom d ⟨false, none⟩ (TipEvent.tick :: es)
          = runTipFrom d (tipStep d ⟨false, none⟩ TipEvent.tick) es := rfl
        _ = ⟨false, none⟩ := by rw [hstep]; exact ih hrest
    | cancel =>
      have hstep : tipStep d ⟨false, none⟩ TipEvent.cancel = ⟨false, none⟩ := rfl
      calc runTipFrom d ⟨false, none⟩ (TipEvent.cancel :: es)
          = runTipFrom d (tipStep d ⟨false, none⟩ TipEvent.cancel) es := rfl
        _ = ⟨false, none⟩ := by rw [hstep]; exact ih hrest

theorem runTipFrom_countdown (d : Nat) :
    ∀ (k r : Nat), k < r →
      runTipFrom d ⟨false, some r⟩ (List.replicate k TipEvent.tick) =
        ⟨false, some (r - k)⟩ := by
  intro k
  induction k with
  | zero =>
    intro r _
    simp [runTipFrom]
  | succ n ih =>
    intro r hr
    rw [List.replicate_succ]
    have hstep : tipStep d ⟨false, some r⟩ TipEvent.tick = ⟨false, some (r - 1)⟩ := by
      simp only [tipStep]
      rw [if_neg (by omega)]
    calc runTipFrom d ⟨false, some r⟩ (TipEvent.tick :: List.replicate n TipEvent.tick)
        = runTipFrom d (tipStep d ⟨false, some r⟩ TipEvent.tick)
            (List.replicate n TipEvent.tick) := rfl
      _ = ⟨false, some (r - 1 - n)⟩ := by rw [hstep]; exact ih (r - 1) (by omega)
      _ = ⟨false, some (r - (n + 1))⟩ := by
            have harith : r - 1 - n = r - (n + 1) := by omega
            rw [harith]

/-- Claim C5: the tooltip becomes visible only when a hover survived at
least the configured delay's worth of ticks with no cancelling event in
between; and a blur/cancel arriving before the delay elapsed leaves the
tooltip invisible for that whole episode. -/
theorem tooltip_delay_show (d k : Nat) (es esr : List TipEvent)
    (hk : k < d) (hnh : ∀ e ∈ esr, e ≠ TipEvent.hover) :
    ((runTip d es).visible = true →
      ∃ es₁ es₂, es = es₁ ++ TipEvent.hover :: es₂ ∧
        (∀ e ∈ es₂, e ≠ TipEvent.cancel) ∧ d ≤ ticksIn es₂) ∧
    (runTip d (TipEvent.hover ::
        (List.replicate k TipEvent.tick ++ TipEvent.cancel :: esr))).visible
      = false := by
  constructor
  · exact (tip_inv d es).1
  · have h1 : tipStep d tipInit TipEvent.hover = ⟨false, some d⟩ := rfl
    have hsplit : runTip d (TipEvent.hover ::
        (List.replicate k TipEvent.tick ++ TipEvent.cancel :: esr)) =
        runTipFrom d
          (runTipFrom d ⟨false, some d⟩ (List.replicate k TipEvent.tick))
          (TipEvent.cancel :: esr) := by
      simp [runTip, runTipFrom, List.foldl_append, h1]
    rw [hsplit, runTipFrom_countdown d k d hk]
    have h2 : tipStep d ⟨false, some (d - k)⟩ TipEvent.cancel = ⟨false, none⟩ := rfl
    calc (runTipFrom d ⟨false, some (d - k)⟩ (TipEvent.cancel :: esr)).visible
        = (runTipFrom d (tipStep d ⟨false, some (d - k)⟩ TipEvent.cancel)
            esr).visible := rfl
      _ = false := by rw [h2, runTipFrom_inert d esr hnh]

theorem tooltip_delay_show_witness :
    1 < 2 ∧
    (((runTip 2 [TipEvent.hover, TipEvent.tick, TipEvent.tick]).visible = true →
      ∃ es₁ es₂, [TipEvent.hover, TipEvent.tick, TipEvent.tick] =
          es₁ ++ TipEvent.hover :: es₂ ∧
        (∀ e ∈ es₂, e ≠ TipEvent.cancel) ∧ 2 ≤ ticksIn es₂) ∧
     (runTip 2 (TipEvent.hover ::
        (List.replicate 1 TipEvent.tick ++ TipEvent.cancel :: ([] : List TipEvent)))).visible
      = false) :=
  ⟨by decide, tooltip_delay_show 2 1 [TipEvent.hover, TipEvent.tick, TipEvent.tick]
      [] (by decide) (by simp)⟩

/-- Process-wide tooltip coordinator state, modelled from the spec's
"single currently-visible tooltip" shared flag: the owning controller (if
any) and the list of controllers whose tooltip is visible. -/
structure TipCoord where
  owner : Option Nat
  visList : List Nat
  deriving DecidableEq

def coordInit : TipCoord := ⟨none, []⟩

/-- Coordinator events: controller `i` shows its tooltip, or attempts to
clear the shared flag. -/
inductive CoordEvent where
  | showTip (i : Nat)
  | clearTip (i : Nat)
  deriving DecidableEq

/-- Modelled from the spec: showing transfers ownership and visibility to
the showing controller; clearing succeeds only for the owning
controller and is otherwise a no-op. -/
def coordStep (s : TipCoord) : CoordEvent → TipCoord
  | .showTip i => { owner := some i, visList := [i] }
  | .clearTip i =>
    if s.owner = some i then { owner := none, visList := [] } else s

def runCoord (es : List CoordEvent) : TipCoord := es.foldl coordStep coordInit

/-- Whether controller `i`'s tooltip is visible. -/
def isVis (s : TipCoord) (i : Nat) : Bool := s.visList.contains i

/-- Coordinator invariant: nothing is visible, or exactly the owner is. -/
def CoordInv (s : TipCoord) : Prop :=
  s.visList = [] ∨ ∃ w, s.owner = some w ∧ s.visList = [w]

theorem coordInv_step (s : TipCoord) (e : CoordEvent) (h : CoordInv s) :
    CoordInv (coordStep s e) := by
  cases e with
  | showTip i => exact Or.inr ⟨i, rfl, rfl⟩
  | clearTip i =>
    by_cases ho : s.owner = some i
    · simp only [coordStep, ho, if_true]
      exact Or.inl rfl
    · simpa [coordStep, ho] using h

theorem coordInv_run (es : List CoordEvent) : CoordInv (runCoord es) := by
  suffices hgen : ∀ s : TipCoord, CoordInv s → CoordInv (es.foldl coordStep s) by
    exact hgen coordInit (Or.inl rfl)
  induction es with
  | nil => intro s hs; exact hs
  | cons e es ih =>
    intro s hs
    exact ih (coordStep s e) (coordInv_step s e hs)

/-- Claim C7: in every reachable coordinator state at most one tooltip is
visible — a visible controller is the unique owner, any other visible
controller coincides with it, a non-owner's clear is a no-op, and the
owner's clear resets the shared flag and its own visibility. -/
theorem single_visible_tooltip (es : List CoordEvent) (i j : Nat)
    (hi : isVis (runCoord es) i = true) :
    (isVis (runCoord es) j = true → j = i) ∧
    (runCoord es).owner = some i ∧
    (j ≠ i → coordStep (runCoord es) (.clearTip j) = runCoord es) ∧
    (coordStep (runCoord es) (.clearTip i)).owner = none ∧
    isVis (coordStep (runCoord es) (.clearTip i)) i = false := by
  rcases coordInv_run es with hnil | ⟨w, how, hvl⟩
  · rw [isVis, hnil] at hi
    simp at hi
  · have hiw : i = w := by
      rw [isVis, hvl] at hi
      simpa using hi
    subst hiw
    refine ⟨?_, how, ?_, ?_, ?_⟩
    · intro hj
      rw [isVis, hvl] at hj
      simpa using hj
    · intro hji
      simp only [coordStep]
      rw [if_neg ?hne]
      case hne =>
        rw [how]
        intro hc
        injection hc with hc
        exact hji hc.symm
    · simp only [coordStep]
      rw [if_pos how]
    · simp only [coordStep]
      rw [if_pos how]
      simp [isVis]

theorem single_visible_tooltip_witness :
    isVis (runCoord [CoordEvent.showTip 0]) 0 = true ∧
    ((isVis (runCoord [CoordEvent.showTip 0]) 1 = true → 1 = 0) ∧
     (runCoord [CoordEvent.showTip 0]).owner = some 0 ∧
     (1 ≠ 0 → coordStep (runCoord [CoordEvent.showTip 0]) (.clearTip 1) =
        runCoord [CoordEvent.showTip 0]) ∧
     (coordStep (runCoord [CoordEvent.showTip 0]) (.clearTip 0)).owner = none ∧
     isVis (coordStep (runCoord [CoordEvent.showTip 0]) (.clearTip 0)) 0 = false) :=
  ⟨by decide, single_visible_tooltip [CoordEvent.showTip 0] 0 1 (by decide)⟩

/-- Kinds of prop types distinguished by the `MenuItemProps` declaration. -/
inductive PropTy where
  | str
  | node
  | nativeEventHandler
  | menuSelectCallback
  | other
  deriving DecidableEq

/-- Representative subset of `React.HTMLProps<HTMLDivElement>` as a keyed
record, including the ARIA `role` prop and the native `onSelect` event
handler that `MenuItemProps` removes. -/
def reactHTMLPropsDiv : List (String × PropTy) :=
  [("id", .str), ("className", .str), ("role", .str),
   ("onClick", .nativeEventHandler), ("onSelect", .nativeEventHandler),
   ("onKeyDown", .nativeEventHandler), ("tabIndex", .other), ("style", .other)]

/-- `Omit<Props, K>`: drop the key `K` from a keyed record. -/
def omitKey (k : String) (props : List (String × PropTy)) :
    List (String × PropTy) :=
  props.filter (fun p => decide (p.1 ≠ k))

/-- MenuItemProps from `src/unnamed/part_000` lines 160–176:
`Omit<Omit<React.HTMLProps<HTMLDivElement>, "role">, "onSelect">`
intersected with the required `children` and the menu-selection
`onSelect : () => any`. -/
def MenuItemProps : List (String × PropTy) :=
  omitKey "onSelect" (omitKey "role" reactHTMLPropsDiv) ++
    [("children", .node), ("onSelect", .menuSelectCallback)]

/-- Claim C10: `MenuItemProps` has no `role` key at all, its only
`onSelect` key is the menu-selection callback (not the native HTML
handler), so consumers can override neither. -/
theorem menuItemProps_excludes_role_and_native :
    MenuItemProps.lookup "role" = none ∧
    MenuItemProps.lookup "onSelect" = some PropTy.menuSelectCallback ∧
    (MenuItemProps.filter (fun p => decide (p.1 = "role"))).length = 0 ∧
    (MenuItemProps.filter (fun p => decide (p.1 = "onSelect"))).length = 1 ∧
    PropTy.menuSelectCallback ≠ PropTy.nativeEventHandler := by
  decide

end ReachUI
